import Mathlib

/-!
Shallow embedding of the calltop eBPF aggregation core (src/ebpf.c and
src/usdt.c): the per-key counter / start-time / cumulative-latency hash
table and its entry and exit handlers. Machine integers are modelled as
Nat reduced modulo 2^32 or 2^64 at exactly the points where the C code
wraps. Fixed 64-byte character fields are modelled as the byte list that
a write leaves in the zero-initialised field.
-/

namespace Calltop

/-- Modulus of a 32-bit unsigned integer. -/
def U32 : Nat := 2 ^ 32

/-- Modulus of a 64-bit unsigned integer. -/
def U64 : Nat := 2 ^ 64

/-- Writing a NUL-terminated byte string into a zero-initialised 64-byte
field: the source bytes, the terminator, then the untouched zero padding.
A source of 64 or more bytes yields a list longer than 64 bytes,
representing a write past the end of the field (strcpy has no bound). -/
def bufWrite (src : List Nat) : List Nat :=
  src ++ 0 :: List.replicate (63 - src.length) 0

/-- Embedding of strcpy(key.fname, fname) in do_enter and do_return
(src/ebpf.c lines 52 and 79): an unbounded copy, no truncation. -/
def strcpyBuf (src : List Nat) : List Nat := bufWrite src

/-- Embedding of bpf_probe_read_str(&key.fname, sizeof(key.fname), addr)
(src/usdt.c lines 99 and 139): at most 63 bytes are copied, then the
terminator. -/
def probeReadStrBuf (src : List Nat) : List Nat := bufWrite (src.take 63)

/-- Embedding of bpf_get_current_comm(key.comm, sizeof(key.comm)): a
bounded, terminated copy of the current process name. -/
def getCommBuf (comm : List Nat) : List Nat := bufWrite (comm.take 63)

/-- A 64-byte field left at its zero initialisation. -/
def zeroBuf : List Nat := List.replicate 64 0

/-- struct key_t of src/ebpf.c: char fname[64], char comm[64], u32 pid,
u32 sysid. -/
structure Key where
  fname : List Nat
  comm : List Nat
  pid : Nat
  sysid : Nat
deriving DecidableEq

/-- struct key_t of src/usdt.c: char fname[64], char comm[64], u32 pid. -/
structure UsdtKey where
  fname : List Nat
  comm : List Nat
  pid : Nat
deriving DecidableEq

/-- struct value_t: u32 counter, u64 startTime, u64 cumLat. -/
structure Value where
  counter : Nat
  startTime : Nat
  cumLat : Nat
deriving DecidableEq

/-- The zero value struct value_t valZero = {0,0,0}. -/
def valZero : Value := ⟨0, 0, 0⟩

/-- A BPF_HASH map: an association list of entries plus the fixed capacity
given in the BPF_HASH declaration (32768 in src/ebpf.c, 1024 in
src/usdt.c). -/
structure Table (κ : Type) where
  entries : List (κ × Value)
  capacity : Nat
deriving DecidableEq

/-- Lookup in the association list underlying a map. -/
def lookupA {κ : Type} [DecidableEq κ] : List (κ × Value) → κ → Option Value
  | [], _ => none
  | (a, b) :: t, k => if a = k then some b else lookupA t k

/-- Replace the value stored for a present key. -/
def updateA {κ : Type} [DecidableEq κ] : List (κ × Value) → κ → Value → List (κ × Value)
  | [], _, _ => []
  | (a, b) :: t, k, v => if a = k then (a, v) :: t else (a, b) :: updateA t k v

/-- map.update(&key, pValue): replace when the key is present, else insert
when there is spare capacity. -/
def Table.update {κ : Type} [DecidableEq κ] (m : Table κ) (k : κ) (v : Value) : Table κ :=
  if (lookupA m.entries k).isSome then ⟨updateA m.entries k v, m.capacity⟩
  else if m.entries.length < m.capacity then ⟨m.entries ++ [(k, v)], m.capacity⟩
  else m

/-- map.lookup_or_try_init(&key, &v0), and bcc map.lookup_or_init whose
failed insertion aborts the handler with the same observable effect: the
existing value, or a fresh insertion of v0 when capacity allows, or none
when the table is full. -/
def Table.lookupOrTryInit {κ : Type} [DecidableEq κ] (m : Table κ) (k : κ) (v0 : Value) :
    Option (Value × Table κ) :=
  match lookupA m.entries k with
  | some v => some (v, m)
  | none =>
    if m.entries.length < m.capacity then
      some (v0, ⟨m.entries ++ [(k, v0)], m.capacity⟩)
    else none

/-- Key built by do_enter and do_return: strcpy of the function name, the
current comm, the low 32 bits of the pid, sysid left zero-initialised. -/
def fnKey (fname comm : List Nat) (pid : Nat) : Key :=
  ⟨strcpyBuf fname, getCommBuf comm, pid % U32, 0⟩

/-- Key built by sys_enter and sys_exit: fname left zero-initialised, the
syscall id truncated to u32. -/
def sysKey (sysid : Nat) (comm : List Nat) (pid : Nat) : Key :=
  ⟨zeroBuf, getCommBuf comm, pid % U32, sysid % U32⟩

/-- Key built by usdt_enter and usdt_return from the bytes that the
foreign-memory read left in key.fname. -/
def usdtKey (fnameBuf comm : List Nat) (pid : Nat) : UsdtKey :=
  ⟨fnameBuf, getCommBuf comm, pid % U32⟩

/-- do_enter (src/ebpf.c lines 42-70): lookup or zero-init, then increment
the u32 counter and overwrite startTime with the current time. -/
def do_enter (m : Table Key) (fname comm : List Nat) (pid now : Nat) : Table Key :=
  match m.lookupOrTryInit (fnKey fname comm pid) valZero with
  | none => m
  | some (v, m1) =>
    m1.update (fnKey fname comm pid)
      { v with counter := (v.counter + 1) % U32, startTime := now % U64 }

/-- do_return (src/ebpf.c lines 72-93): plain lookup; drop when the key is
absent or when the stored startTime is the 0 sentinel, else accumulate the
u64 difference endTime - startTime into cumLat. -/
def do_return (m : Table Key) (fname comm : List Nat) (pid now : Nat) : Table Key :=
  match lookupA m.entries (fnKey fname comm pid) with
  | none => m
  | some v =>
    if v.startTime = 0 then m
    else
      m.update (fnKey fname comm pid)
        { v with cumLat := (v.cumLat + (now % U64 + U64 - v.startTime)) % U64 }

/-- sys_enter tracepoint handler (src/ebpf.c lines 97-124). The null check
on the lookup result is commented out in the source; bcc lookup_or_init
nevertheless returns from the program when insertion fails, so a full
table still drops the event without mutation. -/
def sys_enter (m : Table Key) (sysid : Nat) (comm : List Nat) (pid now : Nat) : Table Key :=
  match m.lookupOrTryInit (sysKey sysid comm pid) valZero with
  | none => m
  | some (v, m1) =>
    m1.update (sysKey sysid comm pid)
      { v with counter := (v.counter + 1) % U32, startTime := now % U64 }

/-- sys_exit tracepoint handler (src/ebpf.c lines 126-147): unlike
do_return there is no startTime == 0 sentinel check; any present value
accumulates endTime - startTime. -/
def sys_exit (m : Table Key) (sysid : Nat) (comm : List Nat) (pid now : Nat) : Table Key :=
  match lookupA m.entries (sysKey sysid comm pid) with
  | none => m
  | some v =>
    m.update (sysKey sysid comm pid)
      { v with cumLat := (v.cumLat + (now % U64 + U64 - v.startTime)) % U64 }

/-- usdt_enter (src/usdt.c lines 86-123). readRet is the int returned by
bpf_probe_read_str: nonnegative on success, with src the string read;
negative on failure, in which case key.fname keeps its zero
initialisation. The source stores readRet into u32 ret and guards with
ret < 0, a comparison of an unsigned value against zero, embedded here as
the always-false Nat comparison on the converted value. -/
def usdt_enter (m : Table UsdtKey) (readRet : Int) (src comm : List Nat) (pid now : Nat) :
    Table UsdtKey :=
  if (readRet % (2 ^ 32 : Int)).toNat < 0 then m
  else
    match m.lookupOrTryInit
        (usdtKey (if 0 ≤ readRet then probeReadStrBuf src else zeroBuf) comm pid) valZero with
    | none => m
    | some (v, m1) =>
      m1.update (usdtKey (if 0 ≤ readRet then probeReadStrBuf src else zeroBuf) comm pid)
        { v with counter := (v.counter + 1) % U32, startTime := now % U64 }

/-- usdt_return (src/usdt.c lines 127-162): same u32 read guard; on a miss
the entry is created from defaultVal = {1, endTime, 0}; in every kept case
cumLat accumulates endTime - startTime with no sentinel check. -/
def usdt_return (m : Table UsdtKey) (readRet : Int) (src comm : List Nat) (pid now : Nat) :
    Table UsdtKey :=
  if (readRet % (2 ^ 32 : Int)).toNat < 0 then m
  else
    match m.lookupOrTryInit
        (usdtKey (if 0 ≤ readRet then probeReadStrBuf src else zeroBuf) comm pid)
        ⟨1, now % U64, 0⟩ with
    | none => m
    | some (v, m1) =>
      m1.update (usdtKey (if 0 ≤ readRet then probeReadStrBuf src else zeroBuf) comm pid)
        { v with cumLat := (v.cumLat + (now % U64 + U64 - v.startTime)) % U64 }

/-- A sequence of do_enter events on one key at the given timestamps. -/
def enterSeq (m : Table Key) (fname comm : List Nat) (pid : Nat) (ts : List Nat) : Table Key :=
  ts.foldl (fun acc t => do_enter acc fname comm pid t) m

/-- Stored form that the specification promises for an over-length name:
the first 63 bytes of the original followed by a terminator. Stated from
the words of the spec for comparison against the embedded copies. -/
def specTruncatedName (src : List Nat) : List Nat := src.take 63 ++ [0]

/-! Association-list and map lemmas. -/

theorem lookupA_updateA_self {κ : Type} [DecidableEq κ] (l : List (κ × Value)) (k : κ)
    (v : Value) (h : (lookupA l k).isSome) : lookupA (updateA l k v) k = some v := by
  induction l with
  | nil => simp [lookupA] at h
  | cons hd tl ih =>
    obtain ⟨a, b⟩ := hd
    by_cases hk : a = k
    · simp [lookupA, updateA, hk]
    · simp [lookupA, updateA, hk] at h ⊢
      exact ih h

theorem lookupA_append_self {κ : Type} [DecidableEq κ] (l : List (κ × Value)) (k : κ)
    (v : Value) (h : lookupA l k = none) : lookupA (l ++ [(k, v)]) k = some v := by
  induction l with
  | nil => simp [lookupA]
  | cons hd tl ih =>
    obtain ⟨a, b⟩ := hd
    by_cases hk : a = k
    · simp [lookupA, hk] at h
    · simp only [List.cons_append]
      simp [lookupA, hk] at h ⊢
      exact ih h

theorem lookupOrTryInit_present {κ : Type} [DecidableEq κ] (m : Table κ) (k : κ)
    (v0 v : Value) (h : lookupA m.entries k = some v) :
    m.lookupOrTryInit k v0 = some (v, m) := by
  simp [Table.lookupOrTryInit, h]

theorem lookupOrTryInit_absent_space {κ : Type} [DecidableEq κ] (m : Table κ) (k : κ)
    (v0 : Value) (h : lookupA m.entries k = none) (hs : m.entries.length < m.capacity) :
    m.lookupOrTryInit k v0 = some (v0, ⟨m.entries ++ [(k, v0)], m.capacity⟩) := by
  simp [Table.lookupOrTryInit, h, hs]

theorem lookupOrTryInit_absent_full {κ : Type} [DecidableEq κ] (m : Table κ) (k : κ)
    (v0 : Value) (h : lookupA m.entries k = none) (hs : ¬ m.entries.length < m.capacity) :
    m.lookupOrTryInit k v0 = none := by
  simp [Table.lookupOrTryInit, h, hs]

theorem lookup_update_present {κ : Type} [DecidableEq κ] (m : Table κ) (k : κ)
    (v w : Value) (h : lookupA m.entries k = some w) :
    lookupA (m.update k v).entries k = some v := by
  have hs : (lookupA m.entries k).isSome := by simp [h]
  simp [Table.update, hs, lookupA_updateA_self m.entries k v hs]

/-! Arithmetic lemmas about the wrapped machine operations. -/

theorem one_mod_U32 : 1 % U32 = 1 := by norm_num [U32]

/-- The u64 subtraction endTime - startTime followed by the wrapped
addition, in the case without wraparound. -/
theorem u64_accum (cl st t : Nat) (hst : st ≤ t) (hov : cl + (t - st) < U64) :
    (cl + (t + U64 - st)) % U64 = cl + (t - st) := by
  have h1 : cl + (t + U64 - st) = (cl + (t - st)) + U64 := by omega
  rw [h1, Nat.add_mod_right, Nat.mod_eq_of_lt hov]

/-- The u64 delta of an exit that pairs against its own fresh default
startTime is exactly zero. -/
theorem u64_accum_self (t : Nat) : (0 + (t + U64 - t)) % U64 = 0 := by
  have h1 : 0 + (t + U64 - t) = U64 := by omega
  rw [h1, Nat.mod_self]

/-! Handler step lemmas. -/

theorem do_enter_lookup_present (m : Table Key) (f c : List Nat) (p t : Nat) (v : Value)
    (h : lookupA m.entries (fnKey f c p) = some v) :
    lookupA (do_enter m f c p t).entries (fnKey f c p)
      = some ⟨(v.counter + 1) % U32, t % U64, v.cumLat⟩ := by
  unfold do_enter
  rw [lookupOrTryInit_present m (fnKey f c p) valZero v h]
  exact lookup_update_present m (fnKey f c p) _ v h

theorem do_enter_lookup_absent (m : Table Key) (f c : List Nat) (p t : Nat)
    (h : lookupA m.entries (fnKey f c p) = none) (hsp : m.entries.length < m.capacity) :
    lookupA (do_enter m f c p t).entries (fnKey f c p) = some ⟨1, t % U64, 0⟩ := by
  unfold do_enter
  rw [lookupOrTryInit_absent_space m (fnKey f c p) valZero h hsp]
  have hpres : lookupA (m.entries ++ [(fnKey f c p, valZero)]) (fnKey f c p) = some valZero :=
    lookupA_append_self m.entries (fnKey f c p) valZero h
  have hupd := lookup_update_present ⟨m.entries ++ [(fnKey f c p, valZero)], m.capacity⟩
    (fnKey f c p)
    { valZero with counter := (valZero.counter + 1) % U32, startTime := t % U64 }
    valZero hpres
  simpa [valZero, one_mod_U32] using hupd

theorem do_enter_eq_absent_full (m : Table Key) (f c : List Nat) (p t : Nat)
    (h : lookupA m.entries (fnKey f c p) = none) (hful : ¬ m.entries.length < m.capacity) :
    do_enter m f c p t = m := by
  unfold do_enter
  rw [lookupOrTryInit_absent_full m (fnKey f c p) valZero h hful]

theorem do_return_eq_absent (m : Table Key) (f c : List Nat) (p t : Nat)
    (h : lookupA m.entries (fnKey f c p) = none) : do_return m f c p t = m := by
  unfold do_return
  rw [h]

theorem do_return_eq_present_zero (m : Table Key) (f c : List Nat) (p t : Nat) (v : Value)
    (h : lookupA m.entries (fnKey f c p) = some v) (hz : v.startTime = 0) :
    do_return m f c p t = m := by
  unfold do_return
  rw [h]
  simp [hz]

theorem do_return_lookup_present_nonzero (m : Table Key) (f c : List Nat) (p t : Nat)
    (v : Value) (h : lookupA m.entries (fnKey f c p) = some v) (hnz : v.startTime ≠ 0) :
    lookupA (do_return m f c p t).entries (fnKey f c p)
      = some { v with cumLat := (v.cumLat + (t % U64 + U64 - v.startTime)) % U64 } := by
  unfold do_return
  rw [h]
  simp only [hnz, if_neg hnz]
  exact lookup_update_present m (fnKey f c p) _ v h

theorem sys_exit_lookup_present (m : Table Key) (s : Nat) (c : List Nat) (p t : Nat)
    (v : Value) (h : lookupA m.entries (sysKey s c p) = some v) :
    lookupA (sys_exit m s c p t).entries (sysKey s c p)
      = some { v with cumLat := (v.cumLat + (t % U64 + U64 - v.startTime)) % U64 } := by
  unfold sys_exit
  rw [h]
  exact lookup_update_present m (sysKey s c p) _ v h

theorem sys_enter_eq_absent_full (m : Table Key) (s : Nat) (c : List Nat) (p t : Nat)
    (h : lookupA m.entries (sysKey s c p) = none) (hful : ¬ m.entries.length < m.capacity) :
    sys_enter m s c p t = m := by
  unfold sys_enter
  rw [lookupOrTryInit_absent_full m (sysKey s c p) valZero h hful]

theorem usdt_enter_eq_absent_full (m : Table UsdtKey) (rr : Int) (src c : List Nat)
    (p t : Nat) (hrr : 0 ≤ rr)
    (h : lookupA m.entries (usdtKey (probeReadStrBuf src) c p) = none)
    (hful : ¬ m.entries.length < m.capacity) : usdt_enter m rr src c p t = m := by
  unfold usdt_enter
  rw [if_neg (Nat.not_lt_zero _), if_pos hrr,
    lookupOrTryInit_absent_full m (usdtKey (probeReadStrBuf src) c p) valZero h hful]

theorem usdt_enter_lookup_absent (m : Table UsdtKey) (rr : Int) (src c : List Nat)
    (p t : Nat) (hrr : 0 ≤ rr)
    (h : lookupA m.entries (usdtKey (probeReadStrBuf src) c p) = none)
    (hsp : m.entries.length < m.capacity) :
    lookupA (usdt_enter m rr src c p t).entries (usdtKey (probeReadStrBuf src) c p)
      = some ⟨1, t % U64, 0⟩ := by
  unfold usdt_enter
  rw [if_neg (Nat.not_lt_zero _), if_pos hrr,
    lookupOrTryInit_absent_space m (usdtKey (probeReadStrBuf src) c p) valZero h hsp]
  have hpres := lookupA_append_self m.entries (usdtKey (probeReadStrBuf src) c p) valZero h
  have hupd := lookup_update_present
    ⟨m.entries ++ [(usdtKey (probeReadStrBuf src) c p, valZero)], m.capacity⟩
    (usdtKey (probeReadStrBuf src) c p)
    { valZero with counter := (valZero.counter + 1) % U32, startTime := t % U64 }
    valZero hpres
  simpa [valZero, one_mod_U32] using hupd

theorem usdt_return_lookup_present (m : Table UsdtKey) (rr : Int) (src c : List Nat)
    (p t : Nat) (v : Value) (hrr : 0 ≤ rr)
    (h : lookupA m.entries (usdtKey (probeReadStrBuf src) c p) = some v) :
    lookupA (usdt_return m rr src c p t).entries (usdtKey (probeReadStrBuf src) c p)
      = some { v with cumLat := (v.cumLat + (t % U64 + U64 - v.startTime)) % U64 } := by
  unfold usdt_return
  rw [if_neg (Nat.not_lt_zero _), if_pos hrr,
    lookupOrTryInit_present m (usdtKey (probeReadStrBuf src) c p) ⟨1, t % U64, 0⟩ v h]
  exact lookup_update_present m (usdtKey (probeReadStrBuf src) c p) _ v h

theorem usdt_return_lookup_absent_space (m : Table UsdtKey) (rr : Int) (src c : List Nat)
    (p t : Nat) (hrr : 0 ≤ rr)
    (h : lookupA m.entries (usdtKey (probeReadStrBuf src) c p) = none)
    (hsp : m.entries.length < m.capacity) :
    lookupA (usdt_return m rr src c p t).entries (usdtKey (probeReadStrBuf src) c p)
      = some ⟨1, t % U64, 0⟩ := by
  unfold usdt_return
  rw [if_neg (Nat.not_lt_zero _), if_pos hrr,
    lookupOrTryInit_absent_space m (usdtKey (probeReadStrBuf src) c p) ⟨1, t % U64, 0⟩ h hsp]
  have hpres := lookupA_append_self m.entries (usdtKey (probeReadStrBuf src) c p)
    (⟨1, t % U64, 0⟩ : Value) h
  have hupd := lookup_update_present
    ⟨m.entries ++ [(usdtKey (probeReadStrBuf src) c p, ⟨1, t % U64, 0⟩)], m.capacity⟩
    (usdtKey (probeReadStrBuf src) c p)
    { (⟨1, t % U64, 0⟩ : Value) with
        cumLat := ((0 : Nat) + (t % U64 + U64 - t % U64)) % U64 }
    ⟨1, t % U64, 0⟩ hpres
  simpa [u64_accum_self] using hupd

/-- Counter accumulated by a run of do_enter events on a key already
present: it advances by the number of events, modulo 2^32. -/
theorem enterSeq_counter_mod (f c : List Nat) (p : Nat) :
    ∀ (ts : List Nat) (m : Table Key) (v : Value),
      lookupA m.entries (fnKey f c p) = some v → v.counter < U32 →
      (lookupA (enterSeq m f c p ts).entries (fnKey f c p)).map Value.counter
        = some ((v.counter + ts.length) % U32) := by
  intro ts
  induction ts with
  | nil =>
    intro m v h hlt
    simp [enterSeq, h, Nat.mod_eq_of_lt hlt]
  | cons t ts ih =>
    intro m v h hlt
    have hstep := do_enter_lookup_present m f c p t v h
    have hnext := ih (do_enter m f c p t) ⟨(v.counter + 1) % U32, t % U64, v.cumLat⟩ hstep
      (Nat.mod_lt _ (by norm_num [U32]))
    calc (lookupA (enterSeq m f c p (t :: ts)).entries (fnKey f c p)).map Value.counter
        = (lookupA (enterSeq (do_enter m f c p t) f c p ts).entries (fnKey f c p)).map
            Value.counter := by
          simp [enterSeq]
      _ = some (((v.counter + 1) % U32 + ts.length) % U32) := hnext
      _ = some ((v.counter + (t :: ts).length) % U32) := by
          rw [Nat.mod_add_mod]
          have hlen : v.counter + 1 + ts.length = v.counter + (t :: ts).length := by
            simp [List.length_cons]
            omega
          rw [hlen]

/-- Counter after a nonempty run of do_enter events starting from an
absent key with spare capacity: the number of events, modulo 2^32. -/
theorem enterSeq_counter_from_absent (m : Table Key) (f c : List Nat) (p t : Nat)
    (ts : List Nat) (h : lookupA m.entries (fnKey f c p) = none)
    (hsp : m.entries.length < m.capacity) :
    (lookupA (enterSeq m f c p (t :: ts)).entries (fnKey f c p)).map Value.counter
      = some ((ts.length + 1) % U32) := by
  have hstep := do_enter_lookup_absent m f c p t h hsp
  have hnext := enterSeq_counter_mod f c p ts (do_enter m f c p t) ⟨1, t % U64, 0⟩ hstep
    (by norm_num [U32])
  calc (lookupA (enterSeq m f c p (t :: ts)).entries (fnKey f c p)).map Value.counter
      = (lookupA (enterSeq (do_enter m f c p t) f c p ts).entries (fnKey f c p)).map
          Value.counter := by
        simp [enterSeq]
    _ = some ((1 + ts.length) % U32) := hnext
    _ = some ((ts.length + 1) % U32) := by rw [Nat.add_comm]

/-! Claim theorems. -/

/-- Claim C1, counterexample: at the concrete input below, do_return on an
empty table creates no entry at all, against the claim that every exit
handler creates one initialised with counter = 1 and startTime = now. -/
theorem do_return_absent_key_creates_nothing :
    do_return ⟨[], 4⟩ [102] [99] 1 100 = (⟨[], 4⟩ : Table Key)
    ∧ lookupA (do_return ⟨[], 4⟩ [102] [99] 1 100).entries (fnKey [102] [99] 1) = none
    ∧ lookupA (do_return ⟨[], 4⟩ [102] [99] 1 100).entries (fnKey [102] [99] 1)
        ≠ some ⟨1, 100, 0⟩ := by
  decide

/-- Claim C1 (amended): an exit event whose key has no prior recorded entry
creates the entry with counter = 1, startTime = now and cumulative latency
exactly 0 on the user-space marker path (usdt_return seeds its
lookup_or_try_init with defaultVal = {1, now, 0}, so the accumulated delta
is exactly zero, never negative or wrapped), while the kernel-probe exit
handler do_return uses a plain lookup and drops such an event without
creating any entry. -/
theorem exit_without_entry_behavior (m : Table Key) (mu : Table UsdtKey)
    (f c src : List Nat) (p t : Nat) (rr : Int) (hrr : 0 ≤ rr) (ht : t < U64)
    (habs : lookupA mu.entries (usdtKey (probeReadStrBuf src) c p) = none)
    (hsp : mu.entries.length < mu.capacity)
    (habs2 : lookupA m.entries (fnKey f c p) = none) :
    lookupA (usdt_return mu rr src c p t).entries (usdtKey (probeReadStrBuf src) c p)
      = some ⟨1, t, 0⟩
    ∧ do_return m f c p t = m := by
  refine ⟨?_, do_return_eq_absent m f c p t habs2⟩
  have h := usdt_return_lookup_absent_space mu rr src c p t hrr habs hsp
  rwa [Nat.mod_eq_of_lt ht] at h

/-- Claim C1 witness at a concrete empty table. -/
theorem exit_without_entry_behavior_witness :
    lookupA (usdt_return ⟨[], 4⟩ 2 [99] [98] 3 7).entries
        (usdtKey (probeReadStrBuf [99]) [98] 3) = some ⟨1, 7, 0⟩
    ∧ do_return ⟨[], 4⟩ [97] [98] 3 7 = (⟨[], 4⟩ : Table Key) :=
  exit_without_entry_behavior ⟨[], 4⟩ ⟨[], 4⟩ [97] [98] [99] 3 7 2 (by decide)
    (by decide) (by decide) (by decide) (by decide)

/-- Claim C2, counterexample: sys_exit performs no startTime == 0 sentinel
check; on a stored value {1, 0, 0} an exit at time 5 accumulates
5 - 0 = 5 into cumLat, so cumulative latency is not left unchanged. -/
theorem sys_exit_sentinel_not_checked :
    (lookupA (sys_exit ⟨[(sysKey 1 [98] 3, ⟨1, 0, 0⟩)], 4⟩ 1 [98] 3 5).entries
        (sysKey 1 [98] 3)).map Value.cumLat = some 5
    ∧ (5 : Nat) ≠ 0 := by
  decide

/-- Claim C2 (amended): for an exit handled by do_return on a key whose
stored value has startTime = 0, the handler skips accumulation entirely:
the table is unchanged, so cumLat is unchanged, and the record continues
to exist; sys_exit has no such sentinel check. -/
theorem do_return_skips_on_zero_startTime (m : Table Key) (f c : List Nat) (p t : Nat)
    (v : Value) (h : lookupA m.entries (fnKey f c p) = some v) (hz : v.startTime = 0) :
    do_return m f c p t = m
    ∧ lookupA (do_return m f c p t).entries (fnKey f c p) = some v := by
  have heq := do_return_eq_present_zero m f c p t v h hz
  exact ⟨heq, by rw [heq]; exact h⟩

/-- Claim C2 witness at a concrete one-entry table. -/
theorem do_return_skips_on_zero_startTime_witness :
    do_return ⟨[(fnKey [97] [98] 3, ⟨1, 0, 0⟩)], 4⟩ [97] [98] 3 5
      = (⟨[(fnKey [97] [98] 3, ⟨1, 0, 0⟩)], 4⟩ : Table Key)
    ∧ lookupA (do_return ⟨[(fnKey [97] [98] 3, ⟨1, 0, 0⟩)], 4⟩ [97] [98] 3 5).entries
        (fnKey [97] [98] 3) = some ⟨1, 0, 0⟩ :=
  do_return_skips_on_zero_startTime ⟨[(fnKey [97] [98] 3, ⟨1, 0, 0⟩)], 4⟩ [97] [98] 3 5
    ⟨1, 0, 0⟩ (by decide) (by decide)

/-- Claim C3: an entry event arriving at a full table with an unseen key is
dropped as a no-op on every entry handler; the table, hence every stored
entry for any other key, is left exactly as it was. -/
theorem enter_at_capacity_is_noop (m : Table Key) (mu : Table UsdtKey) (s : Nat)
    (f c src : List Nat) (p t : Nat) (rr : Int)
    (hful : m.capacity ≤ m.entries.length) (hfulu : mu.capacity ≤ mu.entries.length)
    (hrr : 0 ≤ rr) :
    (lookupA m.entries (sysKey s c p) = none → sys_enter m s c p t = m)
    ∧ (lookupA m.entries (fnKey f c p) = none → do_enter m f c p t = m)
    ∧ (lookupA mu.entries (usdtKey (probeReadStrBuf src) c p) = none →
        usdt_enter mu rr src c p t = mu) := by
  refine ⟨fun h => sys_enter_eq_absent_full m s c p t h (by omega),
    fun h => do_enter_eq_absent_full m f c p t h (by omega),
    fun h => usdt_enter_eq_absent_full mu rr src c p t hrr h (by omega)⟩

/-- Claim C3 witness at concrete full tables of capacity 1. -/
theorem enter_at_capacity_is_noop_witness :
    sys_enter ⟨[(fnKey [1] [2] 9, valZero)], 1⟩ 4 [98] 3 10
      = (⟨[(fnKey [1] [2] 9, valZero)], 1⟩ : Table Key)
    ∧ do_enter ⟨[(fnKey [1] [2] 9, valZero)], 1⟩ [97] [98] 3 10
      = (⟨[(fnKey [1] [2] 9, valZero)], 1⟩ : Table Key)
    ∧ usdt_enter ⟨[(usdtKey (probeReadStrBuf [5]) [6] 8, valZero)], 1⟩ 2 [99] [98] 3 10
      = (⟨[(usdtKey (probeReadStrBuf [5]) [6] 8, valZero)], 1⟩ : Table UsdtKey) := by
  obtain ⟨h1, h2, h3⟩ := enter_at_capacity_is_noop
    ⟨[(fnKey [1] [2] 9, valZero)], 1⟩ ⟨[(usdtKey (probeReadStrBuf [5]) [6] 8, valZero)], 1⟩
    4 [97] [98] [99] 3 10 2 (by decide) (by decide) (by decide)
  exact ⟨h1 (by decide), h2 (by decide), h3 (by decide)⟩

/-- Claim C4 (code bug): on a failed foreign-memory read, usdt_enter and
usdt_return still mutate the table. The source stores the negative int
returned by bpf_probe_read_str into u32 ret and tests ret < 0, which an
unsigned value never satisfies, so the intended drop never fires: with
read result -14 (EFAULT) on an empty table each handler inserts an
entry. -/
theorem usdt_read_failure_still_mutates :
    (usdt_enter ⟨[], 1024⟩ (-14) [104, 105] [98] 3 77).entries.length = 1
    ∧ (usdt_return ⟨[], 1024⟩ (-14) [104, 105] [98] 3 77).entries.length = 1
    ∧ (⟨[], 1024⟩ : Table UsdtKey).entries.length = 0 := by
  decide

/-- Claim C5, counterexample: the named-function path copies the name with
strcpy and performs no truncation; a 64-byte name is stored whole (with
its terminator one byte past the field), not as the first 63 bytes
followed by a terminator. -/
theorem strcpy_path_does_not_truncate :
    ((do_enter ⟨[], 2⟩ (List.replicate 64 97) [98] 3 10).entries.map
        (fun e => e.1.fname)) = [List.replicate 64 97 ++ [0]]
    ∧ List.replicate 64 97 ++ [0] ≠ specTruncatedName (List.replicate 64 97) := by
  decide

/-- Claim C5 (amended): on the user-space marker path, a name of 64 bytes
or more is stored as exactly the first 63 bytes followed by the
terminator, and the insertion is accepted regardless of the length; the
named-function strcpy path stores the name without truncation. -/
theorem usdt_name_truncation (mu : Table UsdtKey) (src c : List Nat) (p t : Nat) (rr : Int)
    (hrr : 0 ≤ rr) (hlong : 64 ≤ src.length)
    (habs : lookupA mu.entries (usdtKey (probeReadStrBuf src) c p) = none)
    (hsp : mu.entries.length < mu.capacity) :
    probeReadStrBuf src = specTruncatedName src
    ∧ lookupA (usdt_enter mu rr src c p t).entries (usdtKey (probeReadStrBuf src) c p)
        = some ⟨1, t % U64, 0⟩
    ∧ strcpyBuf src ≠ specTruncatedName src := by
  have hlen63 : (src.take 63).length = 63 := by
    rw [List.length_take]
    omega
  refine ⟨?_, usdt_enter_lookup_absent mu rr src c p t hrr habs hsp, ?_⟩
  · unfold probeReadStrBuf bufWrite specTruncatedName
    rw [hlen63]
    simp
  · intro hcontra
    have hlens := congrArg List.length hcontra
    simp [strcpyBuf, bufWrite, specTruncatedName, List.length_append,
      List.length_replicate, List.length_take] at hlens
    omega

/-- Claim C5 witness at a concrete 64-byte name. -/
theorem usdt_name_truncation_witness :
    probeReadStrBuf (List.replicate 64 107) = specTruncatedName (List.replicate 64 107)
    ∧ lookupA (usdt_enter ⟨[], 2⟩ 2 (List.replicate 64 107) [98] 3 9).entries
        (usdtKey (probeReadStrBuf (List.replicate 64 107)) [98] 3) = some ⟨1, 9 % U64, 0⟩
    ∧ strcpyBuf (List.replicate 64 107) ≠ specTruncatedName (List.replicate 64 107) :=
  usdt_name_truncation ⟨[], 2⟩ (List.replicate 64 107) [98] 3 9 2 (by decide) (by decide)
    (by decide) (by decide)

/-- Claim C6, counterexample: an entry at t0 = 0 stores a startTime equal
to the 0 sentinel, so the matching exit at t1 = 5 skips accumulation and
cumulative latency stays 0 instead of increasing by t1 - t0 = 5. -/
theorem latency_pair_fails_at_time_zero :
    (lookupA (do_return (do_enter ⟨[], 2⟩ [97] [98] 3 0) [97] [98] 3 5).entries
        (fnKey [97] [98] 3)).map Value.cumLat = some 0
    ∧ (0 : Nat) ≠ 5 := by
  decide

/-- Claim C6 (amended): a matched entry(t0) exit(t1) pair on one key with
0 < t0 ≤ t1 < 2^64, no intervening event on the key and no
cumulative-latency overflow increases cumLat by exactly t1 - t0; at
t0 = 0 the stored start collides with the 0 sentinel and do_return skips
accumulation instead. -/
theorem latency_pair_exact_delta (m : Table Key) (f c : List Nat) (p t0 t1 : Nat)
    (v : Value) (hv : (lookupA m.entries (fnKey f c p)).getD valZero = v)
    (hsp : (lookupA m.entries (fnKey f c p)).isSome ∨ m.entries.length < m.capacity)
    (h0 : 0 < t0) (h01 : t0 ≤ t1) (h1 : t1 < U64)
    (hov : v.cumLat + (t1 - t0) < U64) :
    (lookupA (do_return (do_enter m f c p t0) f c p t1).entries (fnKey f c p)).map
        Value.cumLat = some (v.cumLat + (t1 - t0)) := by
  have ht0 : t0 % U64 = t0 := Nat.mod_eq_of_lt (lt_of_le_of_lt h01 h1)
  have ht1 : t1 % U64 = t1 := Nat.mod_eq_of_lt h1
  have hnz0 : t0 ≠ 0 := h0.ne'
  cases hlk : lookupA m.entries (fnKey f c p) with
  | none =>
    have hv0 : v = valZero := by rw [hlk] at hv; simpa using hv.symm
    subst hv0
    have hsp2 : m.entries.length < m.capacity := by
      rcases hsp with hs | hs
      · rw [hlk] at hs; simp at hs
      · exact hs
    have h1e := do_enter_lookup_absent m f c p t0 hlk hsp2
    rw [ht0] at h1e
    have h2e := do_return_lookup_present_nonzero (do_enter m f c p t0) f c p t1
      ⟨1, t0, 0⟩ h1e hnz0
    rw [h2e, Option.map_some']
    show some ((0 + (t1 % U64 + U64 - t0)) % U64) = some (valZero.cumLat + (t1 - t0))
    rw [ht1, u64_accum 0 t0 t1 h01 hov]
    rfl
  | some w =>
    have hweq : w = v := by rw [hlk] at hv; simpa using hv
    subst hweq
    have h1e := do_enter_lookup_present m f c p t0 w hlk
    rw [ht0] at h1e
    have h2e := do_return_lookup_present_nonzero (do_enter m f c p t0) f c p t1
      ⟨(w.counter + 1) % U32, t0, w.cumLat⟩ h1e hnz0
    rw [h2e, Option.map_some']
    show some ((w.cumLat + (t1 % U64 + U64 - t0)) % U64) = some (w.cumLat + (t1 - t0))
    rw [ht1, u64_accum w.cumLat t0 t1 h01 hov]

/-- Claim C6 witness at a concrete one-entry table and the pair
entry(100), exit(160). -/
theorem latency_pair_exact_delta_witness :
    (lookupA (do_return (do_enter ⟨[(fnKey [97] [98] 3, ⟨1, 4, 10⟩)], 2⟩ [97] [98] 3 100)
        [97] [98] 3 160).entries (fnKey [97] [98] 3)).map Value.cumLat
      = some (10 + (160 - 100)) :=
  latency_pair_exact_delta ⟨[(fnKey [97] [98] 3, ⟨1, 4, 10⟩)], 2⟩ [97] [98] 3 100 160
    ⟨1, 4, 10⟩ (by decide) (by decide) (by decide) (by decide) (by decide) (by decide)

/-- Claim C7, counterexample: a run of 2^32 entry events on one key leaves
the u32 counter at 0, not at N = 2^32; the counter wraps. -/
theorem counter_wraps_at_two_pow_32 :
    (lookupA (enterSeq ⟨[], 1⟩ [97] [98] 5 (7 :: List.replicate (2 ^ 32 - 1) 7)).entries
        (fnKey [97] [98] 5)).map Value.counter = some 0
    ∧ (7 :: List.replicate (2 ^ 32 - 1) 7).length = 2 ^ 32
    ∧ (0 : Nat) ≠ 2 ^ 32 := by
  have hbase := enterSeq_counter_from_absent ⟨[], 1⟩ [97] [98] 5 7
    (List.replicate (2 ^ 32 - 1) 7) (by decide) (by decide)
  refine ⟨?_, by rw [List.length_cons, List.length_replicate]; norm_num, by norm_num⟩
  rw [hbase, List.length_replicate]
  norm_num [U32]

/-- Claim C7 (amended): after N entry events on one key starting from an
absent key with spare capacity, the stored u32 counter equals N modulo
2^32, hence exactly N whenever N < 2^32. -/
theorem counter_counts_entries_mod (m : Table Key) (f c : List Nat) (p t : Nat)
    (ts : List Nat) (h : lookupA m.entries (fnKey f c p) = none)
    (hsp : m.entries.length < m.capacity) :
    (lookupA (enterSeq m f c p (t :: ts)).entries (fnKey f c p)).map Value.counter
      = some ((t :: ts).length % U32)
    ∧ ((t :: ts).length < U32 →
        (lookupA (enterSeq m f c p (t :: ts)).entries (fnKey f c p)).map Value.counter
          = some (t :: ts).length) := by
  have hbase := enterSeq_counter_from_absent m f c p t ts h hsp
  constructor
  · rw [hbase, List.length_cons]
  · intro hlt
    rw [hbase]
    have hred : (ts.length + 1) % U32 = ts.length + 1 := by
      rw [List.length_cons] at hlt
      exact Nat.mod_eq_of_lt hlt
    rw [hred, List.length_cons]

/-- Claim C7 witness: three entry events from an empty slot give
counter = 3. -/
theorem counter_counts_entries_mod_witness :
    (lookupA (enterSeq ⟨[], 2⟩ [97] [98] 5 (10 :: [11, 12])).entries
        (fnKey [97] [98] 5)).map Value.counter = some ((10 :: [11, 12]).length % U32)
    ∧ ((10 :: [11, 12]).length < U32 →
        (lookupA (enterSeq ⟨[], 2⟩ [97] [98] 5 (10 :: [11, 12])).entries
          (fnKey [97] [98] 5)).map Value.counter = some (10 :: [11, 12]).length) :=
  counter_counts_entries_mod ⟨[], 2⟩ [97] [98] 5 10 [11, 12] (by decide) (by decide)

/-- Claim C8: two entries then an exit on one key collapse onto the latest
startTime: entry(100), entry(105), exit(150) yields counter = 2 and
cumulative latency 150 - 105 = 45. -/
theorem double_entry_collapse_scenario :
    lookupA (do_return (do_enter (do_enter ⟨[], 4⟩ [97] [98] 3 100) [97] [98] 3 105)
        [97] [98] 3 150).entries (fnKey [97] [98] 3) = some ⟨2, 105, 45⟩ := by
  decide

/-- Claim C9, counterexample: with exit timestamps behind the stored
startTime (entry at 10, exits at 5 and then 6) the wrapped u64 delta makes
cumLat decrease from 2^64 - 5 to 2^64 - 9 between the two exits. -/
theorem cumLat_decreases_on_reversed_timestamps :
    (lookupA (do_return (do_enter ⟨[], 4⟩ [97] [98] 3 10) [97] [98] 3 5).entries
        (fnKey [97] [98] 3)).map Value.cumLat = some (U64 - 5)
    ∧ (lookupA (do_return (do_return (do_enter ⟨[], 4⟩ [97] [98] 3 10) [97] [98] 3 5)
        [97] [98] 3 6).entries (fnKey [97] [98] 3)).map Value.cumLat = some (U64 - 9)
    ∧ U64 - 9 < U64 - 5 := by
  decide

/-- Claim C9 (amended): a handler step on a stored value never decreases
the counter or the cumulative latency, provided the counter does not hit
the 2^32 wrap, the exit timestamp is at least the stored startTime, and
the accumulated latency stays below 2^64. -/
theorem monotonicity_under_wellformed_steps (m : Table Key) (mu : Table UsdtKey)
    (f c src : List Nat) (p t : Nat) (rr : Int) (v : Value)
    (hm : lookupA m.entries (fnKey f c p) = some v)
    (hmu : lookupA mu.entries (usdtKey (probeReadStrBuf src) c p) = some v)
    (hrr : 0 ≤ rr) (hc : v.counter + 1 < U32) (hst : v.startTime ≤ t) (ht : t < U64)
    (hov : v.cumLat + (t - v.startTime) < U64) :
    (∃ w, lookupA (do_enter m f c p t).entries (fnKey f c p) = some w
      ∧ v.counter ≤ w.counter ∧ v.cumLat ≤ w.cumLat)
    ∧ (∃ w, lookupA (do_return m f c p t).entries (fnKey f c p) = some w
      ∧ v.counter ≤ w.counter ∧ v.cumLat ≤ w.cumLat)
    ∧ (∃ w, lookupA (usdt_return mu rr src c p t).entries
          (usdtKey (probeReadStrBuf src) c p) = some w
      ∧ v.counter ≤ w.counter ∧ v.cumLat ≤ w.cumLat) := by
  have ht' : t % U64 = t := Nat.mod_eq_of_lt ht
  refine ⟨?_, ?_, ?_⟩
  · refine ⟨_, do_enter_lookup_present m f c p t v hm, ?_, le_refl _⟩
    show v.counter ≤ (v.counter + 1) % U32
    rw [Nat.mod_eq_of_lt hc]
    omega
  · by_cases hz : v.startTime = 0
    · rw [do_return_eq_present_zero m f c p t v hm hz]
      exact ⟨v, hm, le_refl _, le_refl _⟩
    · refine ⟨_, do_return_lookup_present_nonzero m f c p t v hm hz, le_refl _, ?_⟩
      show v.cumLat ≤ (v.cumLat + (t % U64 + U64 - v.startTime)) % U64
      rw [ht', u64_accum v.cumLat v.startTime t hst hov]
      omega
  · refine ⟨_, usdt_return_lookup_present mu rr src c p t v hrr hmu, le_refl _, ?_⟩
    show v.cumLat ≤ (v.cumLat + (t % U64 + U64 - v.startTime)) % U64
    rw [ht', u64_accum v.cumLat v.startTime t hst hov]
    omega

/-- Claim C9 witness at a concrete stored value {2, 10, 100} and a step at
time 50. -/
theorem monotonicity_under_wellformed_steps_witness :
    (∃ w, lookupA (do_enter ⟨[(fnKey [97] [98] 3, ⟨2, 10, 100⟩)], 4⟩ [97] [98] 3 50).entries
        (fnKey [97] [98] 3) = some w ∧ 2 ≤ w.counter ∧ 100 ≤ w.cumLat)
    ∧ (∃ w, lookupA (do_return ⟨[(fnKey [97] [98] 3, ⟨2, 10, 100⟩)], 4⟩ [97] [98] 3
          50).entries (fnKey [97] [98] 3) = some w ∧ 2 ≤ w.counter ∧ 100 ≤ w.cumLat)
    ∧ (∃ w, lookupA (usdt_return ⟨[(usdtKey (probeReadStrBuf [99]) [98] 3, ⟨2, 10, 100⟩)], 4⟩
          2 [99] [98] 3 50).entries (usdtKey (probeReadStrBuf [99]) [98] 3) = some w
        ∧ 2 ≤ w.counter ∧ 100 ≤ w.cumLat) :=
  monotonicity_under_wellformed_steps ⟨[(fnKey [97] [98] 3, ⟨2, 10, 100⟩)], 4⟩
    ⟨[(usdtKey (probeReadStrBuf [99]) [98] 3, ⟨2, 10, 100⟩)], 4⟩ [97] [98] [99] 3 50 2
    ⟨2, 10, 100⟩ (by decide) (by decide) (by decide) (by decide) (by decide) (by decide)
    (by decide)

/-- Claim C10: an exit that accumulates a delta leaves the stored counter
and startTime unchanged — in particular startTime is not reset to the 0
sentinel — so a second exit on the same key with no intervening entry
accumulates a second delta against the same stored start timestamp; the
same frame holds for sys_exit. -/
theorem exit_preserves_counter_and_startTime (m : Table Key) (s : Nat) (f c : List Nat)
    (p t1 t2 : Nat) (v w : Value)
    (hm : lookupA m.entries (fnKey f c p) = some v) (hnz : v.startTime ≠ 0)
    (hms : lookupA m.entries (sysKey s c p) = some w) :
    lookupA (do_return m f c p t1).entries (fnKey f c p)
      = some ⟨v.counter, v.startTime, (v.cumLat + (t1 % U64 + U64 - v.startTime)) % U64⟩
    ∧ lookupA (do_return (do_return m f c p t1) f c p t2).entries (fnKey f c p)
      = some ⟨v.counter, v.startTime,
          ((v.cumLat + (t1 % U64 + U64 - v.startTime)) % U64
            + (t2 % U64 + U64 - v.startTime)) % U64⟩
    ∧ lookupA (sys_exit m s c p t1).entries (sysKey s c p)
      = some ⟨w.counter, w.startTime, (w.cumLat + (t1 % U64 + U64 - w.startTime)) % U64⟩ := by
  have h1 := do_return_lookup_present_nonzero m f c p t1 v hm hnz
  refine ⟨h1, ?_, sys_exit_lookup_present m s c p t1 w hms⟩
  exact do_return_lookup_present_nonzero (do_return m f c p t1) f c p t2
    ⟨v.counter, v.startTime, (v.cumLat + (t1 % U64 + U64 - v.startTime)) % U64⟩ h1 hnz

/-- Claim C10 witness at a concrete table holding both a named-function
key and a syscall key. -/
theorem exit_preserves_counter_and_startTime_witness :
    lookupA (do_return ⟨[(fnKey [97] [98] 3, ⟨2, 100, 7⟩), (sysKey 4 [98] 3, ⟨1, 50, 0⟩)], 8⟩
        [97] [98] 3 150).entries (fnKey [97] [98] 3)
      = some ⟨2, 100, (7 + (150 % U64 + U64 - 100)) % U64⟩
    ∧ lookupA (do_return (do_return
          ⟨[(fnKey [97] [98] 3, ⟨2, 100, 7⟩), (sysKey 4 [98] 3, ⟨1, 50, 0⟩)], 8⟩
          [97] [98] 3 150) [97] [98] 3 160).entries (fnKey [97] [98] 3)
      = some ⟨2, 100, ((7 + (150 % U64 + U64 - 100)) % U64 + (160 % U64 + U64 - 100)) % U64⟩
    ∧ lookupA (sys_exit ⟨[(fnKey [97] [98] 3, ⟨2, 100, 7⟩), (sysKey 4 [98] 3, ⟨1, 50, 0⟩)], 8⟩
          4 [98] 3 150).entries (sysKey 4 [98] 3)
      = some ⟨1, 50, (0 + (150 % U64 + U64 - 50)) % U64⟩ :=
  exit_preserves_counter_and_startTime
    ⟨[(fnKey [97] [98] 3, ⟨2, 100, 7⟩), (sysKey 4 [98] 3, ⟨1, 50, 0⟩)], 8⟩ 4 [97] [98] 3
    150 160 ⟨2, 100, 7⟩ ⟨1, 50, 0⟩ (by decide) (by decide) (by decide)

end Calltop
